import Mathlib

/-!
# Verification of the aidss prompt-document protocol

Shallow embedding of the Go sources of `stevegt/aidss` (the later revision of
`main.go` found in the repository: `parsePromptFile`, `readInFilesContent`,
`handleUserMessage`, `processLLMResponse`, `buildContextMessages`, and the
`llm` package's OpenAI client).

Modelling conventions:
* Go strings are Lean `String`s; character-level scanning is done on
  `String.data : List Char`.
* Filesystem paths are lists of components (`Path := List String`);
  `filepath.Dir` drops the last component and `filepath.Join dir rel`
  appends `rel` as one component (path cleaning is irrelevant to the
  verified properties).
* The filesystem is a read map `Path → Option String`; writes performed by
  the code are collected as an explicit operation trace (`FsOp`), and
  `log.Printf` warnings are collected as `Warning` values.  Writes are
  modelled as infallible (the Go code panics via `Ck` on write errors).
* Go `map` iteration order is unspecified; maps are modelled as association
  lists in insertion order, a deterministic refinement.  None of the
  verified properties depend on that order.
* The `encoding/xml` decoding used by `processLLMResponse` is modelled by a
  structural scanner over the reply text: elements with attributes,
  matching open/close tags, `",innerxml"` capturing the verbatim text
  between an element's own open and close tags.  XML entities, comments,
  CDATA, processing instructions and single-quoted attributes are not
  modelled; all stated properties are about inputs that use none of these
  (in particular inputs free of `&`).
-/

namespace Aidss

/-! ## Go `strings` helpers (strings.TrimSpace, Fields, Split, Index) -/

/-- `unicode.IsSpace` restricted to the ASCII space characters. -/
def isGoSpace (c : Char) : Bool :=
  c = ' ' || c = '\t' || c = '\n' || c = '\x0b' || c = '\x0c' || c = '\r'

/-- Left part of Go `strings.TrimSpace`. -/
def trimLeftChars (cs : List Char) : List Char := cs.dropWhile isGoSpace

/-- Right part of Go `strings.TrimSpace`. -/
def trimRightChars (cs : List Char) : List Char :=
  (cs.reverse.dropWhile isGoSpace).reverse

/-- Go `strings.TrimSpace` on a character list. -/
def trimSpaceChars (cs : List Char) : List Char := trimRightChars (trimLeftChars cs)

/-- Accumulator version of Go `strings.Fields`: split around runs of
whitespace, producing the non-empty words. -/
def fieldsAux : List Char → List Char → List String
  | [], acc => if acc = [] then [] else [String.mk acc.reverse]
  | c :: rest, acc =>
    if isGoSpace c then
      if acc = [] then fieldsAux rest []
      else String.mk acc.reverse :: fieldsAux rest []
    else fieldsAux rest (c :: acc)

/-- Go `strings.Fields`. -/
def fields (s : String) : List String := fieldsAux s.data []

/-- Go `strings.SplitN(content, "\n\n", 2)`: split at the first occurrence
of a blank-line separator; `none` when the separator is absent. -/
def splitSep : List Char → Option (List Char × List Char)
  | [] => none
  | c :: rest =>
    if c = '\n' ∧ rest.head? = some '\n' then
      some ([], rest.tail)
    else
      match splitSep rest with
      | none => none
      | some (a, b) => some (c :: a, b)

/-- Go `strings.Split(s, "\n")` on a character list (always non-empty). -/
def splitOnNl : List Char → List (List Char)
  | [] => [[]]
  | c :: rest =>
    if c = '\n' then [] :: splitOnNl rest
    else
      match splitOnNl rest with
      | [] => [[c]]
      | l :: ls => (c :: l) :: ls

/-- Go `strings.Index(line, ":")` combined with the two slices
`line[:colonIndex]` and `line[colonIndex+1:]`; `none` when no colon. -/
def splitAtColon : List Char → Option (List Char × List Char)
  | [] => none
  | c :: rest =>
    if c = ':' then some ([], rest)
    else
      match splitAtColon rest with
      | none => none
      | some (a, b) => some (c :: a, b)

/-! ## Association lists standing in for Go maps -/

/-- Go `m[k] = v` on an association list: overwrite in place or append. -/
def setAssoc (k v : String) : List (String × String) → List (String × String)
  | [] => [(k, v)]
  | (k', v') :: rest =>
    if k' = k then (k, v) :: rest else (k', v') :: setAssoc k v rest

/-- Go `v, ok := m[k]` on an association list. -/
def getAssoc (k : String) : List (String × String) → Option String
  | [] => none
  | (k', v') :: rest => if k' = k then some v' else getAssoc k rest

/-! ## parsePromptFile (header parser + prompt document model) -/

/-- The `Prompt` struct of `main.go`. -/
structure Prompt where
  inFiles : List String
  outFiles : List String
  sysMsg : String
  promptText : String
deriving DecidableEq, Repr

/-- `strings.HasPrefix(line, " ") || strings.HasPrefix(line, "\t")`. -/
def isContinuationLine (line : List Char) : Bool :=
  line.head? = some ' ' || line.head? = some '\t'

/-- The header-collection loop of `parsePromptFile`.

The Go loop declares a fresh `currentHeader` with `:=` inside the
new-header branch, shadowing the outer `currentHeader` variable; the outer
variable (used by the continuation branch) therefore stays at its initial
value `""`.  The `currentValue` builder is the outer one in both branches
and is reset on each header line.  This embedding reproduces that scoping
exactly: `currentHeader` is the outer variable, and the new-header branch
passes it on unchanged while writing under the freshly parsed (shadowed)
name. -/
def parseHeaderLines :
    List (List Char) → String → String → List (String × String) →
    Except String (List (String × String))
  | [], _, _, hs => .ok hs
  | line :: rest, currentHeader, currentValue, hs =>
    if isContinuationLine line then
      let cv := currentValue ++ " " ++ String.mk (trimSpaceChars line)
      parseHeaderLines rest currentHeader cv (setAssoc currentHeader cv hs)
    else
      match splitAtColon line with
      | none => .error "Header line without colon"
      | some (before, after) =>
        let shadowed := String.mk (trimSpaceChars before)
        let v := String.mk (trimSpaceChars after)
        parseHeaderLines rest currentHeader v (setAssoc shadowed v hs)

/-- The header-interpretation loop of `parsePromptFile` (`switch key`). -/
def applyHeader (p : Prompt) : String × String → Prompt
  | (k, v) =>
    if k = "In" then { p with inFiles := p.inFiles ++ fields v }
    else if k = "Out" then { p with outFiles := p.outFiles ++ fields v }
    else if k = "Sysmsg" then { p with sysMsg := v }
    else p

/-- `parsePromptFile` of `main.go`, with the `ioutil.ReadFile` step
abstracted to its resulting document text. -/
def parsePromptContent (content : String) : Except String Prompt :=
  match splitSep content.data with
  | none => .error "Invalid prompt file format"
  | some (headerText, bodyText) =>
    match parseHeaderLines (splitOnNl headerText) "" "" [] with
    | .error e => .error e
    | .ok hs =>
      .ok (hs.foldl applyHeader
        { inFiles := [], outFiles := [], sysMsg := "",
          promptText := String.mk bodyText })

/-- The header region used by `parsePromptContent` (empty when the
blank-line separator is absent, in which case parsing already failed). -/
def headerRegion (content : String) : List Char :=
  match splitSep content.data with
  | some p => p.1
  | none => []

/-! ## Conversation tree paths and context assembly (buildContextMessages) -/

/-- A filesystem path, as a list of components; `filepath.Dir` is
`List.dropLast` and joining a single component is `· ++ [·]`. -/
abbrev Path := List String

/-- The readable part of the filesystem: path to file content. -/
abbrev FS := Path → Option String

def promptFn : String := "prompt.txt"

def responseFn : String := "response.txt"

/-- The `llm.Message` struct. -/
structure Message where
  role : String
  content : String
deriving DecidableEq, Repr

def ChatMessageRoleUser : String := "user"

def ChatMessageRoleAssistant : String := "assistant"

def ChatMessageRoleSystem : String := "system"

/-- The path-collection loop of `buildContextMessages`: prepend the current
path, stop at the watch path or at the filesystem root (where the parent
equals the path itself), else ascend to the parent. -/
def collectPaths (path watchPath : Path) : List Path :=
  if path = watchPath then [path]
  else if path = [] then [path]
  else collectPaths path.dropLast watchPath ++ [path]
termination_by path.length
decreasing_by
  rename_i h2
  have : path.length ≠ 0 := fun hl => h2 (List.eq_nil_of_length_eq_zero hl)
  simp only [List.length_dropLast]
  omega

/-- One node's contribution to the context: its request message (role
user) if `prompt.txt` is readable, then its reply message (role assistant)
if `response.txt` is readable. -/
def nodeMessages (fs : FS) (p : Path) : List Message :=
  (match fs (p ++ [promptFn]) with
   | some content => [{ role := ChatMessageRoleUser, content := content }]
   | none => []) ++
  (match fs (p ++ [responseFn]) with
   | some content => [{ role := ChatMessageRoleAssistant, content := content }]
   | none => [])

/-- The message-building loop of `buildContextMessages` over the collected
paths. -/
def messagesFor (fs : FS) : List Path → List Message
  | [] => []
  | p :: ps => nodeMessages fs p ++ messagesFor fs ps

/-- `buildContextMessages` of `main.go` (filesystem reads abstracted into
`fs`). -/
def buildContextMessages (fs : FS) (path watchPath : Path) : List Message :=
  messagesFor fs (collectPaths path watchPath)

/-- A concrete filesystem where every node has both artifacts. -/
def fsAllPresent : FS := fun p =>
  if p.getLast? = some promptFn then some "question"
  else if p.getLast? = some responseFn then some "answer"
  else none

/-! ## The XML scanner behind processLLMResponse

`processLLMResponse` wraps the reply in `<root>…</root>` and decodes it
with `encoding/xml` into `Root { OutFiles []OutFile `xml:"OUT"` }`, where
`OutFile` has `Filename string `xml:"filename,attr"`` and
`Content string `xml:",innerxml"``.  The decoder collects the direct
children of the root element named `OUT`; an element's `innerxml` is the
verbatim text between its own open tag and the *matching* close tag
(nesting tracked), and an absent attribute leaves the zero value `""`.

The scanner below models exactly that: `parseContent` walks element
content (plain text plus child elements) until end-of-input (the wrapped
root's close) or a close tag for the enclosing element, and `parseElement`
parses one element after its `<`, requiring a matching close tag.  The
`fuel` argument only makes the recursion structural; every theorem below
supplies enough fuel.  Entities, comments, CDATA, directives and
single-quoted attribute values are not modelled; the verified properties
are stated for inputs without them. -/

/-- Characters Go's scanner accepts inside names, restricted to what the
verified properties need (anything except whitespace and XML syntax
characters). -/
def isNameChar (c : Char) : Bool :=
  !(c = ' ' || c = '\t' || c = '\n' || c = '\r' || c = '<' || c = '>' ||
    c = '/' || c = '=' || c = '"')

/-- A decoded XML element: name, attributes, and verbatim innerraw text. -/
structure XElem where
  name : String
  attrs : List (String × String)
  inner : List Char
deriving DecidableEq, Repr

/-- Parse the attribute list of an open tag, through its closing `>` (or
`/>` for a self-closing tag).  Returns the attributes, the raw consumed
characters, the self-closing flag, and the rest of the input. -/
def parseAttrs : Nat → List Char →
    Option (List (String × String) × List Char × Bool × List Char)
  | 0, _ => none
  | fuel + 1, cs =>
    let sp := cs.takeWhile isGoSpace
    let cs1 := cs.dropWhile isGoSpace
    match cs1 with
    | '>' :: r => some ([], sp ++ ['>'], false, r)
    | '/' :: '>' :: r => some ([], sp ++ ['/', '>'], true, r)
    | _ =>
      let an := cs1.takeWhile isNameChar
      let cs2 := cs1.dropWhile isNameChar
      if an = [] then none
      else
        match cs2 with
        | '=' :: '"' :: cs3 =>
          let av := cs3.takeWhile (fun c => !(c = '"'))
          let cs4 := cs3.dropWhile (fun c => !(c = '"'))
          match cs4 with
          | '"' :: cs5 =>
            match parseAttrs fuel cs5 with
            | some (attrs, raw, sc, rest) =>
              some ((String.mk an, String.mk av) :: attrs,
                sp ++ an ++ '=' :: '"' :: av ++ '"' :: raw, sc, rest)
            | none => none
          | _ => none
        | _ => none

mutual

/-- Parse one element starting right after its `<`: name, attributes,
content up to the matching close tag.  Returns the element, its full raw
text (including the `<`), and the rest of the input. -/
def parseElement : Nat → List Char → Option (XElem × List Char × List Char)
  | 0, _ => none
  | fuel + 1, cs =>
    let nm := cs.takeWhile isNameChar
    let cs1 := cs.dropWhile isNameChar
    if nm = [] then none
    else
      match parseAttrs fuel cs1 with
      | none => none
      | some (attrs, rawA, true, rest) =>
        some ({ name := String.mk nm, attrs := attrs, inner := [] },
          '<' :: (nm ++ rawA), rest)
      | some (attrs, rawA, false, rest) =>
        match parseContent fuel rest with
        | none => none
        | some (_, inner, rest1) =>
          match rest1 with
          | '<' :: '/' :: rest2 =>
            let cn := rest2.takeWhile isNameChar
            let rest3 := rest2.dropWhile isNameChar
            let spc := rest3.takeWhile isGoSpace
            let rest4 := rest3.dropWhile isGoSpace
            if cn = nm then
              match rest4 with
              | '>' :: rest5 =>
                some ({ name := String.mk nm, attrs := attrs, inner := inner },
                  '<' :: (nm ++ rawA ++ inner ++ '<' :: '/' :: (cn ++ spc ++ ['>'])),
                  rest5)
              | _ => none
            else none
          | _ => none

/-- Parse element content: plain text and child elements, stopping at
end-of-input or at a close tag (left in the rest).  Returns the child
elements, the verbatim consumed text, and the rest. -/
def parseContent : Nat → List Char → Option (List XElem × List Char × List Char)
  | 0, _ => none
  | fuel + 1, cs =>
    match cs with
    | [] => some ([], [], [])
    | c :: rest =>
      if c = '<' then
        if rest.head? = some '/' then some ([], [], c :: rest)
        else
          match parseElement fuel rest with
          | none => none
          | some (e, rawE, rest1) =>
            match parseContent fuel rest1 with
            | none => none
            | some (es, raw, rest2) => some (e :: es, rawE ++ raw, rest2)
      else
        match parseContent fuel rest with
        | none => none
        | some (es, raw, rest1) => some (es, c :: raw, rest1)

end

/-- `v, ok := attrs[k]` with Go's zero value for an absent attribute. -/
def attrValue (attrs : List (String × String)) (k : String) : String :=
  match getAssoc k attrs with
  | some v => v
  | none => ""

/-- The extraction half of `processLLMResponse`: decode the wrapped reply
and collect the top-level `OUT` elements as `(Filename, Content)` pairs,
in document order.  `none` models an `xml.Unmarshal` error. -/
def extractOutSections (response : String) : Option (List (String × String)) :=
  match parseContent (response.data.length + 1) response.data with
  | some (elems, _, []) =>
    some ((elems.filter (fun e => e.name = "OUT")).map
      (fun e => (attrValue e.attrs "filename", String.mk e.inner)))
  | _ => none

/-! ## processLLMResponse: reconciliation and writes -/

/-- A filesystem write operation performed by the code, in order. -/
inductive FsOp
  | writeFile (path : Path) (content : String)
  | rename (src dst : Path)
deriving DecidableEq, Repr

/-- A `log.Printf` warning emitted by `processLLMResponse`. -/
inductive Warning
  | declaredOutputMissing (filename : String)
  | undeclaredOutputFound (filename : String)
deriving DecidableEq, Repr

/-- Observable effects of `processLLMResponse`: the write operations in
program order and the warnings logged. -/
structure ProcessOutcome where
  ops : List FsOp
  warnings : List Warning
deriving DecidableEq, Repr

/-- The `outFileContents` map: filename to content, built in document
order, later sections overwriting earlier ones of the same name. -/
def sectionMap (sections : List (String × String)) : List (String × String) :=
  sections.foldl (fun m fc => setAssoc fc.1 fc.2 m) []

/-- The per-declared-filename loop of `processLLMResponse`: missing names
warn; found names write the content to `filename + ".tmp"` and rename the
temporary onto the final path. -/
def writeLoop (parentDir : Path) (m : List (String × String)) :
    List String → List FsOp × List Warning
  | [] => ([], [])
  | f :: rest =>
    match getAssoc f m with
    | none =>
      ((writeLoop parentDir m rest).1,
        Warning.declaredOutputMissing f :: (writeLoop parentDir m rest).2)
    | some c =>
      (FsOp.writeFile (parentDir ++ [f ++ ".tmp"]) c ::
        FsOp.rename (parentDir ++ [f ++ ".tmp"]) (parentDir ++ [f]) ::
          (writeLoop parentDir m rest).1,
        (writeLoop parentDir m rest).2)

/-- The final loop of `processLLMResponse`: warn about every extracted
filename that is not in the declared list (map iteration modelled in
insertion order). -/
def undeclaredWarnings (m : List (String × String)) (outFiles : List String) :
    List Warning :=
  m.filterMap (fun kv =>
    if kv.1 ∈ outFiles then none else some (Warning.undeclaredOutputFound kv.1))

/-- Everything `processLLMResponse` does after a successful decode. -/
def processOutcome (sections : List (String × String)) (outFiles : List String)
    (parentDir : Path) : ProcessOutcome :=
  { ops := (writeLoop parentDir (sectionMap sections) outFiles).1,
    warnings := (writeLoop parentDir (sectionMap sections) outFiles).2 ++
      undeclaredWarnings (sectionMap sections) outFiles }

/-- `processLLMResponse` of `main.go`: decode the reply (wrapped in a root
element) with the XML scanner; on failure return the decode error, else
reconcile the extracted sections against the declared output list,
performing the writes and emitting the warnings. -/
def processLLMResponse (response : String) (outFiles : List String)
    (watchPath : Path) : Except String ProcessOutcome :=
  match extractOutSections response with
  | none => .error "error parsing LLM response XML"
  | some sections => .ok (processOutcome sections outFiles watchPath.dropLast)

/-! ## handleUserMessage and attachment resolution -/

/-- Render a path for error messages. -/
def pathString (p : Path) : String := String.intercalate "/" p

/-- The loop of `readInFilesContent`: read each declared input file
relative to `parentDir`, render it as an `<IN filename="…">` block, abort
at the first unreadable file with an error naming its joined path. -/
def readInLoop (fs : FS) (parentDir : Path) : List String → Except String String
  | [] => .ok ""
  | relPath :: rest =>
    match fs (parentDir ++ [relPath]) with
    | none => .error ("error reading file " ++ pathString (parentDir ++ [relPath]))
    | some data =>
      match readInLoop fs parentDir rest with
      | .error e => .error e
      | .ok restContent =>
        .ok ("<IN filename=\"" ++ relPath ++ "\">\n" ++ data ++ "\n</IN>\n" ++
          restContent)

/-- `readInFilesContent` of `main.go`: paths are resolved relative to the
parent directory of the watch path; attachments are all-or-nothing. -/
def readInFilesContent (fs : FS) (inFiles : List String) (watchPath : Path) :
    Except String String :=
  readInLoop fs watchPath.dropLast inFiles

/-- Observable effects of one `handleUserMessage` invocation. -/
structure HandleOutcome where
  modelCalled : Bool
  ops : List FsOp
  errorLog : Option String
deriving DecidableEq, Repr

/-- `handleUserMessage` of `main.go`: parse the node's prompt file, build
the ancestor context, append the optional system message, resolve the
declared attachments (aborting on failure), call the model (abstracted as
`llmGen`), save the raw reply as the node's `response.txt`, then reconcile
and write the declared outputs via `processLLMResponse`. -/
def handleUserMessage (fs : FS) (llmGen : List Message → Except String String)
    (path watchPath : Path) : HandleOutcome :=
  match fs (path ++ [promptFn]) with
  | none =>
    { modelCalled := false, ops := [],
      errorLog := some "Error parsing prompt file" }
  | some content =>
    match parsePromptContent content with
    | .error e =>
      { modelCalled := false, ops := [],
        errorLog := some ("Error parsing prompt file: " ++ e) }
    | .ok prompt =>
      let ctx0 := buildContextMessages fs path watchPath
      let ctx1 := if prompt.sysMsg ≠ "" then
          ctx0 ++ [{ role := ChatMessageRoleSystem, content := prompt.sysMsg }]
        else ctx0
      match readInFilesContent fs prompt.inFiles watchPath with
      | .error e =>
        { modelCalled := false, ops := [],
          errorLog := some ("Error reading In files: " ++ e) }
      | .ok inContent =>
        let userContent := prompt.promptText ++ "\n\n" ++
          (if inContent.length > 0 then
            "The following files are attached:\n" ++ inContent ++ "\n"
          else "")
        let userMsg : Message := { role := ChatMessageRoleUser, content := userContent }
        match llmGen (ctx1 ++ [userMsg]) with
        | .error e =>
          { modelCalled := true, ops := [],
            errorLog := some ("Error getting LLM response: " ++ e) }
        | .ok response =>
          match processLLMResponse response prompt.outFiles watchPath with
          | .error e =>
            { modelCalled := true,
              ops := [FsOp.writeFile (path ++ [responseFn]) response],
              errorLog := some ("Error processing LLM response: " ++ e) }
          | .ok out =>
            { modelCalled := true,
              ops := FsOp.writeFile (path ++ [responseFn]) response :: out.ops,
              errorLog := none }

/-- A concrete node whose prompt declares a nonexistent input file. -/
def fsMissingAttachment : FS := fun p =>
  if p = ["node", "prompt.txt"] then some "In: missing.txt\n\nDo." else none

/-! ## The llm package's OpenAI client -/

/-- `llm.ChatCompletionMessage`. -/
structure ChatCompletionMessage where
  role : String
  content : String
deriving DecidableEq, Repr

/-- `llm.ChatCompletionChoice`. -/
structure ChatCompletionChoice where
  message : ChatCompletionMessage
deriving DecidableEq, Repr

/-- `llm.ChatCompletionResponse`. -/
structure ChatCompletionResponse where
  choices : List ChatCompletionChoice
deriving DecidableEq, Repr

/-- `llm.ChatCompletionRequest` (`Temperature float32` modelled as `Rat`;
its value plays no role in any property). -/
structure ChatCompletionRequest where
  model : String
  messages : List ChatCompletionMessage
  maxTokens : Nat
  temperature : Rat
deriving DecidableEq, Repr

/-- `llm.Model`. -/
structure OpenAIModel where
  name : String
  maxTokens : Nat
  temperature : Rat
deriving DecidableEq, Repr

/-- The `llm.OpenAI` client. -/
structure OpenAI where
  apiKey : String
  model : OpenAIModel
deriving DecidableEq, Repr

/-- `OpenAI.CreateChatCompletion`: errors without an API key, otherwise
returns the (mocked) one-choice response. -/
def createChatCompletion (o : OpenAI) (_req : ChatCompletionRequest) :
    Except String ChatCompletionResponse :=
  if o.apiKey = "" then .error "API key is not set"
  else .ok { choices := [{ message := { role := ChatMessageRoleAssistant, content := "This is a placeholder response from OpenAI." } }] }

/-- `OpenAI.GenerateResponse`: convert the messages, build the request,
call `CreateChatCompletion`, propagate its error, else return
`resp.Choices[0].Message.Content`.  The Go indexing `Choices[0]` panics on
an empty slice; that case is modelled as the `none` result. -/
def generateResponse (o : OpenAI) (messages : List Message) :
    Except String (Option String) :=
  match createChatCompletion o
    { model := o.model.name,
      messages := messages.map (fun m => { role := m.role, content := m.content }),
      maxTokens := o.model.maxTokens,
      temperature := o.model.temperature } with
  | .error e => .error e
  | .ok resp => .ok (resp.choices.head?.map (fun c => c.message.content))

/-! ## Round-trip lemmas for the XML scanner (claim C1)

The claim C1 quantifies over replies that contain one declared top-level
`OUT` section whose payload itself contains a nested `OUT` section.  The
following definitions give that family of replies a name, and the lemmas
walk the scanner through it. -/

/-- The section open tag `<OUT filename="n">` as a character list. -/
def outOpen (n : List Char) : List Char :=
  '<' :: 'O' :: 'U' :: 'T' :: ' ' :: ("filename=".data ++ '"' :: n ++ '"' :: '>' :: [])

/-- The section close tag `</OUT>` as a character list. -/
def outClose : List Char :=
  '<' :: '/' :: ('O' :: 'U' :: 'T' :: '>' :: [])

/-- The payload of the outer section in claim C1's reply family: literal
text surrounding one nested `OUT` section. -/
def innerPayload (t1 b t2 t3 : List Char) : List Char :=
  t1 ++ outOpen b ++ t2 ++ outClose ++ t3

/-- Claim C1's reply family: one declared top-level section containing a
nested occurrence of the same delimiter syntax, surrounded by plain
text. -/
def nestedReply (pre a t1 b t2 t3 post : List Char) : List Char :=
  pre ++ outOpen a ++ innerPayload t1 b t2 t3 ++ outClose ++ post

/-! ## Lemmas about the header parser -/

theorem nlnl_prefix_iff (c : Char) (rest : List Char) :
    ['\n', '\n'] <+: c :: rest ↔ c = '\n' ∧ rest.head? = some '\n' := by
  rw [List.cons_prefix_cons]
  constructor
  · rintro ⟨h1, h2⟩
    refine ⟨h1.symm, ?_⟩
    cases rest with
    | nil => exact absurd h2 (by simp)
    | cons d r =>
      rw [List.cons_prefix_cons] at h2
      simp [h2.1.symm]
  · rintro ⟨h1, h2⟩
    refine ⟨h1.symm, ?_⟩
    cases rest with
    | nil => simp at h2
    | cons d r =>
      simp only [List.head?_cons, Option.some.injEq] at h2
      subst h2
      exact ⟨r, rfl⟩

theorem splitSep_eq_none_iff (cs : List Char) :
    splitSep cs = none ↔ ¬ ['\n', '\n'] <:+: cs := by
  induction cs with
  | nil =>
    simp [splitSep, List.infix_nil]
  | cons c rest ih =>
    rw [splitSep]
    by_cases h : c = '\n' ∧ rest.head? = some '\n'
    · rw [if_pos h]
      obtain ⟨hc, hh⟩ := h
      cases rest with
      | nil => simp at hh
      | cons d rest' =>
        simp only [List.head?_cons, Option.some.injEq] at hh
        subst hc; subst hh
        simp only [false_iff, not_not, reduceCtorEq]
        exact ⟨[], rest', rfl⟩
    · rw [if_neg h]
      have hiff : ['\n', '\n'] <:+: c :: rest ↔ ['\n', '\n'] <:+: rest := by
        rw [List.infix_cons_iff, nlnl_prefix_iff]
        simp [h]
      cases hsr : splitSep rest with
      | none =>
        simp only [true_iff]
        rw [hiff]
        exact ih.mp hsr
      | some p =>
        simp only [false_iff, not_not, reduceCtorEq]
        rw [hiff]
        by_contra hni
        rw [ih.mpr hni] at hsr
        cases hsr

theorem splitAtColon_eq_none_iff (l : List Char) :
    splitAtColon l = none ↔ ':' ∉ l := by
  induction l with
  | nil => simp [splitAtColon]
  | cons c rest ih =>
    rw [splitAtColon]
    by_cases h : c = ':'
    · subst h; simp
    · rw [if_neg h]
      cases hsr : splitAtColon rest with
      | none =>
        simp only [true_iff]
        simp only [List.mem_cons, not_or]
        exact ⟨fun hc => h hc.symm, ih.mp hsr⟩
      | some p =>
        simp only [false_iff, not_not, reduceCtorEq]
        have : ':' ∈ rest := by
          by_contra hn
          rw [ih.mpr hn] at hsr
          cases hsr
        exact List.mem_cons_of_mem _ this

theorem parseHeaderLines_error_iff (lines : List (List Char)) :
    ∀ (ch cv : String) (hs : List (String × String)),
      (∃ e, parseHeaderLines lines ch cv hs = .error e) ↔
        ∃ line ∈ lines, isContinuationLine line = false ∧ ':' ∉ line := by
  induction lines with
  | nil => intro ch cv hs; simp [parseHeaderLines]
  | cons line rest ih =>
    intro ch cv hs
    rw [parseHeaderLines]
    cases hcont : isContinuationLine line with
    | true =>
      rw [if_pos (by simp [hcont])]
      rw [ih]
      simp only [List.mem_cons]
      constructor
      · rintro ⟨l, hl, hp⟩; exact ⟨l, Or.inr hl, hp⟩
      · rintro ⟨l, hl | hl, hp⟩
        · subst hl; rw [hcont] at hp; cases hp.1
        · exact ⟨l, hl, hp⟩
    | false =>
      rw [if_neg (by simp [hcont])]
      cases hsc : splitAtColon line with
      | none =>
        simp only [List.mem_cons]
        constructor
        · intro _
          exact ⟨line, Or.inl rfl, hcont, (splitAtColon_eq_none_iff line).mp hsc⟩
        · intro _; exact ⟨_, rfl⟩
      | some p =>
        obtain ⟨bf, af⟩ := p
        have hmem : ':' ∈ line := by
          by_contra hn
          rw [(splitAtColon_eq_none_iff line).mpr hn] at hsc
          cases hsc
        rw [ih]
        simp only [List.mem_cons]
        constructor
        · rintro ⟨l, hl, hp⟩; exact ⟨l, Or.inr hl, hp⟩
        · rintro ⟨l, hl | hl, hp⟩
          · subst hl; exact absurd hmem hp.2
          · exact ⟨l, hl, hp⟩

/-- **C3.** `parsePromptFile` fails (with its `MalformedDocument`-class
errors `"Invalid prompt file format"` / `"Header line without colon"`) if
and only if the text has no blank-line separator (no two consecutive
newlines) or some non-continuation line of the header region contains no
colon; every other input parses successfully. -/
theorem parsePromptFile_malformed_iff (content : String) :
    (∃ e, parsePromptContent content = .error e) ↔
      (¬ ['\n', '\n'] <:+: content.data ∨
        ∃ line ∈ splitOnNl (headerRegion content),
          isContinuationLine line = false ∧ ':' ∉ line) := by
  unfold parsePromptContent headerRegion
  cases hsep : splitSep content.data with
  | none =>
    have hni := (splitSep_eq_none_iff _).mp hsep
    simp only [true_iff, reduceCtorEq, Except.error.injEq, exists_eq']
    exact Or.inl hni
  | some p =>
    obtain ⟨h, b⟩ := p
    dsimp only
    have hinf : ['\n', '\n'] <:+: content.data := by
      by_contra hni
      rw [(splitSep_eq_none_iff _).mpr hni] at hsep
      cases hsep
    cases hp : parseHeaderLines (splitOnNl h) "" "" [] with
    | error e =>
      dsimp only
      constructor
      · intro _
        exact Or.inr ((parseHeaderLines_error_iff _ "" "" []).mp ⟨e, hp⟩)
      · intro _
        exact ⟨e, rfl⟩
    | ok hs =>
      dsimp only
      constructor
      · rintro ⟨e, he⟩
        cases he
      · intro hrhs
        rcases hrhs with hni | ⟨line, hl, hbad⟩
        · exact absurd hinf hni
        · have : ∃ e, parseHeaderLines (splitOnNl h) "" "" [] = .error e :=
            (parseHeaderLines_error_iff _ "" "" []).mpr ⟨line, hl, hbad⟩
          rw [hp] at this
          obtain ⟨e, he⟩ := this
          cases he

/-- Witness for C3 at a concrete malformed input. -/
theorem parsePromptFile_malformed_iff_witness :
    ∃ e, parsePromptContent "no separator" = .error e :=
  (parsePromptFile_malformed_iff "no separator").mpr (Or.inl (by decide))

/-- **C2 (code behavior).** The header parser does *not* fold continuation
lines into the open header: for the document `"Sysmsg: be\n terse\n\nbody"`
the header `Sysmsg` keeps only the initial value `"be"`, while the folded
value `"be terse"` is accumulated under the empty header name `""` (the Go
`:=` in the new-header branch shadows the outer `currentHeader`, which
stays `""`).  The claimed behavior would give `sysMsg = "be terse"`. -/
theorem parsePromptFile_continuation_misfold :
    parsePromptContent "Sysmsg: be\n terse\n\nbody" =
      .ok { inFiles := [], outFiles := [], sysMsg := "be", promptText := "body" } ∧
    parseHeaderLines (splitOnNl ("Sysmsg: be\n terse").data) "" "" [] =
      .ok [("Sysmsg", "be"), ("", "be terse")] := by
  exact ⟨rfl, rfl⟩

theorem collectPaths_self (w : Path) : collectPaths w w = [w] := by
  rw [collectPaths]
  simp

theorem collectPaths_under (w : Path) (s : List String) :
    collectPaths (w ++ s) w =
      (List.range (s.length + 1)).map (fun i => w ++ s.take i) := by
  induction s using List.reverseRecOn with
  | nil => simp [collectPaths_self]
  | append_singleton s' a ih =>
    have hne : w ++ (s' ++ [a]) ≠ w := by
      intro h
      have := congrArg List.length h
      simp at this
    have hnil : w ++ (s' ++ [a]) ≠ [] := by simp
    rw [collectPaths, if_neg hne, if_neg hnil]
    have hdrop : (w ++ (s' ++ [a])).dropLast = w ++ s' := by
      rw [← List.append_assoc, List.dropLast_concat]
    rw [hdrop, ih]
    have hlen : (s' ++ [a]).length = s'.length + 1 := by simp
    rw [hlen]
    conv_rhs => rw [List.range_succ, List.map_append]
    congr 1
    · symm
      apply List.map_congr_left
      intro i hi
      rw [List.mem_range] at hi
      rw [List.take_append_of_le_length (by omega)]
    · rw [List.map_singleton, ← hlen, List.take_length]

theorem messagesFor_foldr (fs : FS) (l : List Path) :
    messagesFor fs l = l.foldr (fun p acc => nodeMessages fs p ++ acc) [] := by
  induction l with
  | nil => rfl
  | cons p ps ih => rw [messagesFor, ih]; rfl

theorem nodeMessages_toList (fs : FS) (p : Path) :
    nodeMessages fs p =
      (fs (p ++ [promptFn])).toList.map
        (fun c => { role := ChatMessageRoleUser, content := c }) ++
      (fs (p ++ [responseFn])).toList.map
        (fun c => { role := ChatMessageRoleAssistant, content := c }) := by
  rw [nodeMessages]
  cases fs (p ++ [promptFn]) <;> cases fs (p ++ [responseFn]) <;> rfl

theorem messagesFor_length_of_all_present (fs : FS) (l : List Path)
    (h : ∀ p ∈ l, (fs (p ++ [promptFn])).isSome ∧ (fs (p ++ [responseFn])).isSome) :
    (messagesFor fs l).length = 2 * l.length := by
  induction l with
  | nil => rfl
  | cons p ps ih =>
    obtain ⟨h1, h2⟩ := h p (List.mem_cons_self _ _)
    obtain ⟨c1, hc1⟩ := Option.isSome_iff_exists.mp h1
    obtain ⟨c2, hc2⟩ := Option.isSome_iff_exists.mp h2
    rw [messagesFor, List.length_append, nodeMessages, hc1, hc2,
      ih (fun q hq => h q (List.mem_cons_of_mem _ hq))]
    simp [Nat.mul_add, Nat.add_comm]

/-- **C9.** For a node at depth `s.length` under the tree root `w`, the
assembled context is the flat root-to-leaf sequence over the prefix chain
`w, w++s₁, …, w++s` (root included once at position zero), where each node
contributes its request message (role user) if its request artifact
exists, then its reply message (role assistant) if its reply artifact
exists, and nothing otherwise; when all artifacts exist at every level the
sequence has length `2 * (depth + 1)` (6 for three levels). -/
theorem buildContextMessages_root_to_leaf (fs : FS) (w : Path) (s : List String) :
    buildContextMessages fs (w ++ s) w =
      (List.range (s.length + 1)).foldr
        (fun i acc =>
          (fs ((w ++ s.take i) ++ [promptFn])).toList.map
            (fun c => { role := ChatMessageRoleUser, content := c }) ++
          (fs ((w ++ s.take i) ++ [responseFn])).toList.map
            (fun c => { role := ChatMessageRoleAssistant, content := c }) ++ acc)
        [] ∧
    ((∀ i ∈ List.range (s.length + 1),
        (fs ((w ++ s.take i) ++ [promptFn])).isSome ∧
        (fs ((w ++ s.take i) ++ [responseFn])).isSome) →
      (buildContextMessages fs (w ++ s) w).length = 2 * (s.length + 1)) := by
  have hb : buildContextMessages fs (w ++ s) w =
      messagesFor fs ((List.range (s.length + 1)).map (fun i => w ++ s.take i)) := by
    rw [buildContextMessages, collectPaths_under]
  constructor
  · rw [hb, messagesFor_foldr, List.foldr_map]
    generalize List.range (s.length + 1) = idxs
    induction idxs with
    | nil => rfl
    | cons i is ihs =>
      simp only [List.foldr_cons, ihs, nodeMessages_toList, List.append_assoc]
  · intro hall
    rw [hb, messagesFor_length_of_all_present]
    · simp
    · intro p hp
      rw [List.mem_map] at hp
      obtain ⟨i, hi, rfl⟩ := hp
      exact hall i hi

/-- Witness for C9: a three-level-deep node with all artifacts present
yields a context of length 6. -/
theorem buildContextMessages_root_to_leaf_witness :
    (buildContextMessages fsAllPresent (["w"] ++ ["a", "b"]) ["w"]).length =
      2 * (["a", "b"].length + 1) :=
  (buildContextMessages_root_to_leaf fsAllPresent ["w"] ["a", "b"]).2 (by decide)

/-! ## Lemmas about the reconciliation loops -/

theorem getAssoc_setAssoc (k a b : String) (m : List (String × String)) :
    getAssoc k (setAssoc a b m) = if a = k then some b else getAssoc k m := by
  induction m with
  | nil => simp [setAssoc, getAssoc]
  | cons p rest ih =>
    obtain ⟨k', v'⟩ := p
    simp only [setAssoc, getAssoc]
    split_ifs <;> simp_all [getAssoc]

theorem getAssoc_foldl_setAssoc (k : String) (sections : List (String × String)) :
    ∀ acc, getAssoc k (sections.foldl (fun m fc => setAssoc fc.1 fc.2 m) acc) = none ↔
      (getAssoc k acc = none ∧ k ∉ sections.map Prod.fst) := by
  induction sections with
  | nil => intro acc; simp
  | cons fc rest ih =>
    intro acc
    rw [List.foldl_cons, ih, getAssoc_setAssoc]
    by_cases h : fc.1 = k
    · simp [h]
    · simp only [if_neg h, List.map_cons, List.mem_cons]
      constructor
      · rintro ⟨ha, hb⟩
        exact ⟨ha, fun hc => hc.elim (fun he => h he.symm) hb⟩
      · rintro ⟨ha, hb⟩
        exact ⟨ha, fun hc => hb (Or.inr hc)⟩

theorem sectionMap_none_iff (k : String) (sections : List (String × String)) :
    getAssoc k (sectionMap sections) = none ↔ k ∉ sections.map Prod.fst := by
  rw [sectionMap, getAssoc_foldl_setAssoc]
  simp [getAssoc]

theorem getAssoc_mem (k v : String) (m : List (String × String))
    (h : getAssoc k m = some v) : (k, v) ∈ m := by
  induction m with
  | nil => cases h
  | cons p rest ih =>
    obtain ⟨k', v'⟩ := p
    rw [getAssoc] at h
    by_cases h2 : k' = k
    · rw [if_pos h2] at h
      injection h with h
      subst h2; subst h
      exact List.mem_cons_self _ _
    · rw [if_neg h2] at h
      exact List.mem_cons_of_mem _ (ih h)

theorem writeLoop_empty_map (pd : Path) (outs : List String) :
    writeLoop pd [] outs = ([], outs.map Warning.declaredOutputMissing) := by
  induction outs with
  | nil => rfl
  | cons f rest ih => rw [writeLoop, ih]; rfl

theorem writeLoop_ops_mem (pd : Path) (m : List (String × String))
    (outs : List String) (op : FsOp) (h : op ∈ (writeLoop pd m outs).1) :
    ∃ f c, f ∈ outs ∧ getAssoc f m = some c ∧
      (op = FsOp.writeFile (pd ++ [f ++ ".tmp"]) c ∨
        op = FsOp.rename (pd ++ [f ++ ".tmp"]) (pd ++ [f])) := by
  induction outs with
  | nil => cases h
  | cons f rest ih =>
    rw [writeLoop] at h
    cases hga : getAssoc f m with
    | none =>
      rw [hga] at h
      obtain ⟨g, c, hg, hgc, hop⟩ := ih h
      exact ⟨g, c, List.mem_cons_of_mem _ hg, hgc, hop⟩
    | some c =>
      rw [hga] at h
      simp only [List.mem_cons] at h
      rcases h with rfl | rfl | h
      · exact ⟨f, c, List.mem_cons_self _ _, hga, Or.inl rfl⟩
      · exact ⟨f, c, List.mem_cons_self _ _, hga, Or.inr rfl⟩
      · obtain ⟨g, c', hg, hgc, hop⟩ := ih h
        exact ⟨g, c', List.mem_cons_of_mem _ hg, hgc, hop⟩

theorem writeLoop_count_zero (pd : Path) (m : List (String × String))
    (f : String) (outs : List String) (h : f ∉ outs) :
    ((writeLoop pd m outs).2).count (Warning.declaredOutputMissing f) = 0 := by
  induction outs with
  | nil => rfl
  | cons g rest ih =>
    have hne : g ≠ f := fun he => h (he ▸ List.mem_cons_self _ _)
    have hrest : f ∉ rest := fun hr => h (List.mem_cons_of_mem _ hr)
    rw [writeLoop]
    cases hga : getAssoc g m with
    | none => simp [List.count_cons, ih hrest, hne]
    | some c => simpa using ih hrest

theorem writeLoop_count_one (pd : Path) (m : List (String × String))
    (f : String) (outs : List String) (hnd : outs.Nodup)
    (hf : f ∈ outs) (hm : getAssoc f m = none) :
    ((writeLoop pd m outs).2).count (Warning.declaredOutputMissing f) = 1 := by
  induction outs with
  | nil => cases hf
  | cons g rest ih =>
    rw [writeLoop]
    rcases List.mem_cons.mp hf with rfl | hf'
    · rw [hm]
      have hnotin : f ∉ rest := (List.nodup_cons.mp hnd).1
      simp [List.count_cons, writeLoop_count_zero pd m f rest hnotin]
    · have hnd' := (List.nodup_cons.mp hnd).2
      have hne : g ≠ f := fun he => (List.nodup_cons.mp hnd).1 (he ▸ hf')
      cases hga : getAssoc g m with
      | none => simp [List.count_cons, ih hnd' hf', hne]
      | some c => simpa using ih hnd' hf'

theorem writeLoop_rename_mem (pd : Path) (m : List (String × String))
    (outs : List String) (f c : String)
    (hf : f ∈ outs) (hc : getAssoc f m = some c) :
    FsOp.rename (pd ++ [f ++ ".tmp"]) (pd ++ [f]) ∈ (writeLoop pd m outs).1 := by
  induction outs with
  | nil => cases hf
  | cons g rest ih =>
    rw [writeLoop]
    rcases List.mem_cons.mp hf with rfl | hf'
    · rw [hc]
      exact List.mem_cons_of_mem _ (List.mem_cons_self _ _)
    · cases hga : getAssoc g m with
      | none => exact ih hf'
      | some c' => exact List.mem_cons_of_mem _ (List.mem_cons_of_mem _ (ih hf'))

theorem writeLoop_ops_foldr (pd : Path) (m : List (String × String))
    (outs : List String) :
    (writeLoop pd m outs).1 = outs.foldr (fun f acc =>
      (match getAssoc f m with
        | some c => [FsOp.writeFile (pd ++ [f ++ ".tmp"]) c,
                     FsOp.rename (pd ++ [f ++ ".tmp"]) (pd ++ [f])]
        | none => []) ++ acc) [] := by
  induction outs with
  | nil => rfl
  | cons f rest ih =>
    rw [writeLoop, List.foldr_cons, ← ih]
    cases hga : getAssoc f m <;> rfl

theorem undeclared_count_missing_zero (m : List (String × String))
    (outs : List String) (f : String) :
    (undeclaredWarnings m outs).count (Warning.declaredOutputMissing f) = 0 := by
  rw [List.count_eq_zero]
  intro hmem
  rw [undeclaredWarnings, List.mem_filterMap] at hmem
  obtain ⟨kv, _, hkv⟩ := hmem
  by_cases h : kv.1 ∈ outs
  · rw [if_pos h] at hkv
    cases hkv
  · rw [if_neg h] at hkv
    cases hkv

theorem undeclared_mem (m : List (String × String)) (outs : List String)
    (k v : String) (hkv : (k, v) ∈ m) (hk : k ∉ outs) :
    Warning.undeclaredOutputFound k ∈ undeclaredWarnings m outs := by
  rw [undeclaredWarnings, List.mem_filterMap]
  exact ⟨(k, v), hkv, by simp [hk]⟩

/-! ## Theorems C5–C8 about processLLMResponse -/

/-- **C5 (amended).** When the reply decodes successfully but contains
zero sections, `processLLMResponse` returns success, emitting one
`DeclaredOutputMissing` warning per declared name — there is no distinct
"nothing to extract" condition; only a reply that fails to decode yields
an error. -/
theorem processLLMResponse_zero_sections (r : String) (outs : List String)
    (wp : Path) (hx : extractOutSections r = some []) :
    processLLMResponse r outs wp =
      .ok { ops := [], warnings := outs.map Warning.declaredOutputMissing } := by
  rw [processLLMResponse, hx]
  simp only [processOutcome, sectionMap, List.foldl_nil, writeLoop_empty_map,
    undeclaredWarnings, List.filterMap_nil, List.append_nil]

/-- Witness for C5's amended statement. -/
theorem processLLMResponse_zero_sections_witness :
    processLLMResponse "The answer is 42." ["a.txt"] ["tree"] =
      .ok { ops := [], warnings := [Warning.declaredOutputMissing "a.txt"] } :=
  processLLMResponse_zero_sections _ _ _ rfl

/-- **C5 (counterexample).** A sectionless reply with a non-empty declared
output list makes `processLLMResponse` return success (with only a
per-name `DeclaredOutputMissing` warning), not a distinct
nothing-to-extract error condition. -/
theorem processLLMResponse_sectionless_returns_ok :
    processLLMResponse "I cannot help with that." ["out.txt"] ["tree"] =
      .ok { ops := [], warnings := [Warning.declaredOutputMissing "out.txt"] } := rfl

/-- **C6 (amended).** For a declared output list without duplicate names:
every declared name with no matching section yields exactly one
`DeclaredOutputMissing` warning, and this is non-fatal — every declared
name that does have a matching section still gets its write (temporary
write plus rename onto the final path). -/
theorem processLLMResponse_declared_mismatch (r : String) (outs : List String)
    (wp : Path) (sections : List (String × String))
    (hx : extractOutSections r = some sections) (hnd : outs.Nodup) :
    processLLMResponse r outs wp = .ok (processOutcome sections outs wp.dropLast) ∧
    ∀ f ∈ outs,
      (getAssoc f (sectionMap sections) = none →
        (processOutcome sections outs wp.dropLast).warnings.count
          (Warning.declaredOutputMissing f) = 1) ∧
      (∀ c, getAssoc f (sectionMap sections) = some c →
        FsOp.rename (wp.dropLast ++ [f ++ ".tmp"]) (wp.dropLast ++ [f]) ∈
          (processOutcome sections outs wp.dropLast).ops) := by
  refine ⟨by rw [processLLMResponse, hx], ?_⟩
  intro f hf
  constructor
  · intro hm
    simp only [processOutcome, List.count_append]
    rw [writeLoop_count_one _ _ f outs hnd hf hm,
      undeclared_count_missing_zero]
  · intro c hc
    simp only [processOutcome]
    exact writeLoop_rename_mem _ _ outs f c hf hc

/-- Witness for C6's amended statement: declaring `a.txt` and `b.txt`
while the reply only carries a section for `a.txt` gives exactly one
warning for `b.txt` and still writes `a.txt`. -/
theorem processLLMResponse_declared_mismatch_witness :
    (processOutcome [("a.txt", "hello")] ["a.txt", "b.txt"]
        (["tree"].dropLast)).warnings.count
      (Warning.declaredOutputMissing "b.txt") = 1 ∧
    FsOp.rename (["tree"].dropLast ++ ["a.txt" ++ ".tmp"])
        (["tree"].dropLast ++ ["a.txt"]) ∈
      (processOutcome [("a.txt", "hello")] ["a.txt", "b.txt"]
        (["tree"].dropLast)).ops := by
  have h := processLLMResponse_declared_mismatch
    "<OUT filename=\"a.txt\">hello</OUT>" ["a.txt", "b.txt"] ["tree"]
    [("a.txt", "hello")] rfl (by decide)
  exact ⟨(h.2 "b.txt" (by decide)).1 rfl, (h.2 "a.txt" (by decide)).2 "hello" rfl⟩

/-- **C6 (counterexample).** With a duplicated declared name the code
emits one warning per occurrence, i.e. two warnings for the single name
`b.txt`, refuting "exactly one warning per declared name" for arbitrary
declared lists. -/
theorem processLLMResponse_duplicate_declared_warns_twice :
    processLLMResponse "The reply has no sections." ["b.txt", "b.txt"] ["tree"] =
      .ok { ops := [],
            warnings := [Warning.declaredOutputMissing "b.txt",
                         Warning.declaredOutputMissing "b.txt"] } ∧
    [Warning.declaredOutputMissing "b.txt",
      Warning.declaredOutputMissing "b.txt"].count
        (Warning.declaredOutputMissing "b.txt") = 2 := ⟨rfl, rfl⟩

/-- **C7.** Invariant of the extractor: a file operation is performed only
for filenames that are both declared and matched by an extracted section
(always a temporary write followed by a rename onto the declared path with
exactly the matched content); every extracted section whose name is not
declared is reported with an `UndeclaredOutputFound` warning and no rename
ever targets its path. -/
theorem processLLMResponse_only_declared_written (r : String)
    (outs : List String) (wp : Path) (sections : List (String × String))
    (hx : extractOutSections r = some sections) :
    processLLMResponse r outs wp = .ok (processOutcome sections outs wp.dropLast) ∧
    (∀ op ∈ (processOutcome sections outs wp.dropLast).ops,
      ∃ f c, f ∈ outs ∧ getAssoc f (sectionMap sections) = some c ∧
        (op = FsOp.writeFile (wp.dropLast ++ [f ++ ".tmp"]) c ∨
          op = FsOp.rename (wp.dropLast ++ [f ++ ".tmp"]) (wp.dropLast ++ [f]))) ∧
    (∀ fc ∈ sections, fc.1 ∉ outs →
      Warning.undeclaredOutputFound fc.1 ∈
        (processOutcome sections outs wp.dropLast).warnings ∧
      ∀ src, FsOp.rename src (wp.dropLast ++ [fc.1]) ∉
        (processOutcome sections outs wp.dropLast).ops) := by
  refine ⟨by rw [processLLMResponse, hx], ?_, ?_⟩
  · intro op hop
    simp only [processOutcome] at hop
    exact writeLoop_ops_mem _ _ _ op hop
  · intro fc hfc hnot
    constructor
    · obtain ⟨v, hv⟩ : ∃ v, getAssoc fc.1 (sectionMap sections) = some v := by
        cases hga : getAssoc fc.1 (sectionMap sections) with
        | none =>
          exact absurd (List.mem_map.mpr ⟨fc, hfc, rfl⟩)
            ((sectionMap_none_iff _ _).mp hga)
        | some v => exact ⟨v, rfl⟩
      simp only [processOutcome]
      exact List.mem_append_right _
        (undeclared_mem _ _ _ v (getAssoc_mem _ _ _ hv) hnot)
    · intro src hmem
      simp only [processOutcome] at hmem
      obtain ⟨f, c, hf, hc, hop | hop⟩ := writeLoop_ops_mem _ _ _ _ hmem
      · cases hop
      · injection hop with h1 h2
        have hfc1 : fc.1 = f := by
          have h3 := List.append_cancel_left h2
          injection h3
        exact hnot (hfc1 ▸ hf)

/-- Witness for C7: an undeclared section is warned about and never
written. -/
theorem processLLMResponse_only_declared_written_witness :
    Warning.undeclaredOutputFound "x.txt" ∈
      (processOutcome [("x.txt", "boo")] ["a.txt"] (["tree"].dropLast)).warnings ∧
    FsOp.rename (["tree"].dropLast ++ ["x.txt" ++ ".tmp"])
        (["tree"].dropLast ++ ["x.txt"]) ∉
      (processOutcome [("x.txt", "boo")] ["a.txt"] (["tree"].dropLast)).ops := by
  have h := (processLLMResponse_only_declared_written
    "<OUT filename=\"x.txt\">boo</OUT>" ["a.txt"] ["tree"]
    [("x.txt", "boo")] rfl).2.2 ("x.txt", "boo") (by decide) (by decide)
  exact ⟨h.1, h.2 _⟩

/-- **C8.** Every persisted output file is produced by writing the full
content to `name + ".tmp"` and then renaming the temporary onto the final
path (the operation trace is exactly the write/rename pair per matched
declared name, in declared order); provided no declared name collides with
another's temporary name, no plain write ever targets a declared output
path, so a reader never observes a partially written file there. -/
theorem processLLMResponse_tmp_then_rename (r : String) (outs : List String)
    (wp : Path) (sections : List (String × String))
    (hx : extractOutSections r = some sections) :
    processLLMResponse r outs wp = .ok (processOutcome sections outs wp.dropLast) ∧
    (processOutcome sections outs wp.dropLast).ops = outs.foldr (fun f acc =>
      (match getAssoc f (sectionMap sections) with
        | some c => [FsOp.writeFile (wp.dropLast ++ [f ++ ".tmp"]) c,
                     FsOp.rename (wp.dropLast ++ [f ++ ".tmp"]) (wp.dropLast ++ [f])]
        | none => []) ++ acc) [] ∧
    ((∀ f ∈ outs, f ++ ".tmp" ∉ outs) →
      ∀ p c, FsOp.writeFile p c ∈ (processOutcome sections outs wp.dropLast).ops →
        ∀ g ∈ outs, p ≠ wp.dropLast ++ [g]) := by
  refine ⟨by rw [processLLMResponse, hx], ?_, ?_⟩
  · simp only [processOutcome]
    exact writeLoop_ops_foldr _ _ _
  · intro hcol p c hmem g hg heq
    simp only [processOutcome] at hmem
    obtain ⟨f, c', hf, hc', hop | hop⟩ := writeLoop_ops_mem _ _ _ _ hmem
    · injection hop with h1 h2
      subst heq
      have h3 := List.append_cancel_left h1
      injection h3 with h4 h5
      exact hcol f hf (h4 ▸ hg)
    · cases hop

/-- Witness for C8: a matched declared output produces exactly the
temporary write followed by the rename, and the temporary write does not
target the declared path. -/
theorem processLLMResponse_tmp_then_rename_witness :
    (processOutcome [("a.txt", "X")] ["a.txt"] (["tree"].dropLast)).ops =
      [FsOp.writeFile (["tree"].dropLast ++ ["a.txt" ++ ".tmp"]) "X",
       FsOp.rename (["tree"].dropLast ++ ["a.txt" ++ ".tmp"])
         (["tree"].dropLast ++ ["a.txt"])] ∧
    (["tree"].dropLast ++ ["a.txt" ++ ".tmp"] : Path) ≠
      ["tree"].dropLast ++ ["a.txt"] := by
  have h := processLLMResponse_tmp_then_rename
    "<OUT filename=\"a.txt\">X</OUT>" ["a.txt"] ["tree"] [("a.txt", "X")] rfl
  refine ⟨h.2.1.trans rfl, ?_⟩
  exact h.2.2 (by decide) _ "X" (by rw [h.2.1]; decide) "a.txt" (by decide)

theorem readInLoop_error_of_missing (fs : FS) (pd : Path)
    (inFiles : List String) (h : ∃ f ∈ inFiles, fs (pd ++ [f]) = none) :
    ∃ g ∈ inFiles, fs (pd ++ [g]) = none ∧
      readInLoop fs pd inFiles =
        .error ("error reading file " ++ pathString (pd ++ [g])) := by
  induction inFiles with
  | nil => obtain ⟨f, hf, _⟩ := h; cases hf
  | cons r rest ih =>
    cases hr : fs (pd ++ [r]) with
    | none =>
      exact ⟨r, List.mem_cons_self _ _, hr, by rw [readInLoop, hr]⟩
    | some data =>
      have h' : ∃ f ∈ rest, fs (pd ++ [f]) = none := by
        obtain ⟨f, hf, hn⟩ := h
        rcases List.mem_cons.mp hf with rfl | hf'
        · rw [hr] at hn; cases hn
        · exact ⟨f, hf', hn⟩
      obtain ⟨g, hg, hn, he⟩ := ih h'
      refine ⟨g, List.mem_cons_of_mem _ hg, hn, ?_⟩
      rw [readInLoop, hr, he]

/-- **C4.** If the prompt document declares an input file that cannot be
read, node processing fails with an error naming the missing (joined)
path, makes no model call, and performs no write at all — neither the
reply artifact nor any output file; attachments are all-or-nothing. -/
theorem handleUserMessage_attachment_failure (fs : FS)
    (llmGen : List Message → Except String String) (path watchPath : Path)
    (content : String) (prompt : Prompt)
    (hread : fs (path ++ [promptFn]) = some content)
    (hparse : parsePromptContent content = .ok prompt)
    (hmiss : ∃ f ∈ prompt.inFiles, fs (watchPath.dropLast ++ [f]) = none) :
    (handleUserMessage fs llmGen path watchPath).modelCalled = false ∧
    (handleUserMessage fs llmGen path watchPath).ops = [] ∧
    ∃ g ∈ prompt.inFiles, fs (watchPath.dropLast ++ [g]) = none ∧
      (handleUserMessage fs llmGen path watchPath).errorLog =
        some ("Error reading In files: " ++
          ("error reading file " ++ pathString (watchPath.dropLast ++ [g]))) := by
  obtain ⟨g, hg, hn, he⟩ :=
    readInLoop_error_of_missing fs watchPath.dropLast prompt.inFiles hmiss
  have hout : handleUserMessage fs llmGen path watchPath =
      { modelCalled := false, ops := [],
        errorLog := some ("Error reading In files: " ++
          ("error reading file " ++ pathString (watchPath.dropLast ++ [g]))) } := by
    rw [handleUserMessage, hread]
    dsimp only
    rw [hparse]
    dsimp only
    rw [readInFilesContent, he]
  rw [hout]
  exact ⟨rfl, rfl, g, hg, hn, rfl⟩

/-- Witness for C4. -/
theorem handleUserMessage_attachment_failure_witness :
    (handleUserMessage fsMissingAttachment (fun _ => .ok "ignored")
      ["node"] ["tree"]).modelCalled = false ∧
    (handleUserMessage fsMissingAttachment (fun _ => .ok "ignored")
      ["node"] ["tree"]).ops = [] := by
  have h := handleUserMessage_attachment_failure fsMissingAttachment
    (fun _ => .ok "ignored") ["node"] ["tree"] "In: missing.txt\n\nDo."
    { inFiles := ["missing.txt"], outFiles := [], sysMsg := "",
      promptText := "Do." }
    rfl rfl ⟨"missing.txt", by decide, rfl⟩
  exact ⟨h.1, h.2.1⟩

/-- **C10.** `GenerateResponse` never panics: whenever
`CreateChatCompletion` succeeds it returns at least one choice, so the
index `Choices[0]` is in range (the modelled panic result `none` is
impossible); when `CreateChatCompletion` errors, `GenerateResponse`
propagates that error without indexing. -/
theorem generateResponse_no_panic (o : OpenAI) (messages : List Message) :
    (∀ req resp, createChatCompletion o req = .ok resp →
      1 ≤ resp.choices.length) ∧
    generateResponse o messages ≠ .ok none ∧
    (∀ req e, createChatCompletion o req = .error e →
      generateResponse o messages = .error e) := by
  refine ⟨?_, ?_, ?_⟩
  · intro req resp h
    rw [createChatCompletion] at h
    split_ifs at h
    cases h
    decide
  · rw [generateResponse]
    by_cases hk : o.apiKey = ""
    · rw [createChatCompletion, if_pos hk]
      simp
    · rw [createChatCompletion, if_neg hk]
      simp
  · intro req e h
    rw [createChatCompletion] at h
    split_ifs at h with hk
    injection h with h
    rw [generateResponse, createChatCompletion, if_pos hk, h]

/-- Witness for C10 at a concrete client and model. -/
theorem generateResponse_no_panic_witness :
    generateResponse
        { apiKey := "k",
          model := { name := "gpt-4o", maxTokens := 128000, temperature := 7/10 } }
        [] ≠ .ok none ∧
    generateResponse
        { apiKey := "",
          model := { name := "gpt-4o", maxTokens := 128000, temperature := 7/10 } }
        [] = .error "API key is not set" :=
  ⟨(generateResponse_no_panic _ _).2.1,
    (generateResponse_no_panic _ _).2.2
      { model := "gpt-4o", messages := [], maxTokens := 128000,
        temperature := 7/10 } "API key is not set" rfl⟩

theorem takeWhile_not_quote (n X : List Char) (hn : ∀ c ∈ n, ¬ c = '"') :
    (n ++ '"' :: X).takeWhile (fun c => !(c = '"')) = n := by
  induction n with
  | nil => rfl
  | cons c m ih =>
    rw [List.cons_append, List.takeWhile_cons]
    simp [hn c (List.mem_cons_self _ _),
      ih (fun d hd => hn d (List.mem_cons_of_mem _ hd))]

theorem dropWhile_not_quote (n X : List Char) (hn : ∀ c ∈ n, ¬ c = '"') :
    (n ++ '"' :: X).dropWhile (fun c => !(c = '"')) = '"' :: X := by
  induction n with
  | nil => rfl
  | cons c m ih =>
    rw [List.cons_append, List.dropWhile_cons]
    simp [hn c (List.mem_cons_self _ _),
      ih (fun d hd => hn d (List.mem_cons_of_mem _ hd))]

theorem parseAttrs_filename (n rest : List Char) (hn : ∀ c ∈ n, ¬ c = '"')
    (g : Nat) :
    parseAttrs (g + 1 + 1)
        (' ' :: ("filename=".data ++ '"' :: n ++ '"' :: '>' :: rest)) =
      some ([("filename", String.mk n)],
        ' ' :: ("filename=".data ++ '"' :: n ++ '"' :: ['>']), false, rest) := by
  rw [parseAttrs]
  simp [parseAttrs, List.takeWhile, List.dropWhile, isGoSpace, isNameChar,
    takeWhile_not_quote n ('>' :: rest) hn, dropWhile_not_quote n ('>' :: rest) hn]

theorem parseContent_nil (g : Nat) : parseContent (g + 1) [] = some ([], [], []) := by
  rw [parseContent]

theorem parseContent_stop (g : Nat) (X : List Char) :
    parseContent (g + 1) ('<' :: '/' :: X) = some ([], [], '<' :: '/' :: X) := by
  rw [parseContent]
  simp

theorem parseContent_text (t : List Char) (ht : ∀ c ∈ t, ¬ c = '<')
    (rest : List Char) (es : List XElem) (raw rem : List Char) (b : Nat)
    (hrest : ∀ f, b ≤ f → parseContent f rest = some (es, raw, rem)) :
    ∀ f, t.length + b ≤ f →
      parseContent f (t ++ rest) = some (es, t ++ raw, rem) := by
  induction t with
  | nil =>
    intro f hf
    simpa using hrest f (by simpa using hf)
  | cons c t' ih =>
    intro f hf
    simp only [List.length_cons] at hf
    obtain ⟨g, rfl⟩ : ∃ g, f = g + 1 := ⟨f - 1, by omega⟩
    rw [List.cons_append, parseContent]
    rw [if_neg (ht c (List.mem_cons_self _ _))]
    rw [ih (fun d hd => ht d (List.mem_cons_of_mem _ hd)) g (by omega)]
    rfl

theorem parseContent_elem (cs' : List Char) (hne : cs'.head? ≠ some '/')
    (e : XElem) (rawE rest1 : List Char) (b1 : Nat)
    (helem : ∀ f, b1 ≤ f → parseElement f cs' = some (e, rawE, rest1))
    (es : List XElem) (raw rem : List Char) (b2 : Nat)
    (hrest : ∀ f, b2 ≤ f → parseContent f rest1 = some (es, raw, rem)) :
    ∀ f, b1 + b2 + 1 ≤ f →
      parseContent f ('<' :: cs') = some (e :: es, rawE ++ raw, rem) := by
  intro f hf
  obtain ⟨g, rfl⟩ : ∃ g, f = g + 1 := ⟨f - 1, by omega⟩
  rw [parseContent]
  rw [if_pos rfl, if_neg hne, helem g (by omega)]
  dsimp only
  rw [hrest g (by omega)]

theorem parseElement_out (n body rest : List Char) (es : List XElem) (b : Nat)
    (hn : ∀ c ∈ n, ¬ c = '"')
    (hbody : ∀ f, b ≤ f →
      parseContent f (body ++ '<' :: '/' :: ('O' :: 'U' :: 'T' :: '>' :: rest)) =
        some (es, body, '<' :: '/' :: ('O' :: 'U' :: 'T' :: '>' :: rest))) :
    ∀ f, b + 3 ≤ f →
      parseElement f ('O' :: 'U' :: 'T' :: ' ' ::
          ("filename=".data ++ '"' :: n ++ '"' :: '>' ::
            (body ++ '<' :: '/' :: ('O' :: 'U' :: 'T' :: '>' :: rest)))) =
        some ({ name := "OUT", attrs := [("filename", String.mk n)], inner := body },
          '<' :: 'O' :: 'U' :: 'T' :: ' ' ::
            ("filename=".data ++ '"' :: n ++ '"' :: '>' ::
              (body ++ '<' :: '/' :: ('O' :: 'U' :: 'T' :: '>' :: []))),
          rest) := by
  intro f hf
  obtain ⟨g, rfl⟩ : ∃ g, f = g + 1 + 1 + 1 := ⟨f - 3, by omega⟩
  have hattrs := parseAttrs_filename n
    (body ++ '<' :: '/' :: ('O' :: 'U' :: 'T' :: '>' :: rest)) hn g
  have hcontent := hbody (g + 1 + 1) (by omega)
  rw [parseElement]
  simp [List.takeWhile, List.dropWhile, isGoSpace, isNameChar] at hattrs hcontent ⊢
  rw [hattrs]
  simp [List.takeWhile, List.dropWhile, isGoSpace, isNameChar, hcontent]

theorem parseContent_stop_all (X : List Char) :
    ∀ f, 1 ≤ f → parseContent f ('<' :: '/' :: X) = some ([], [], '<' :: '/' :: X) := by
  intro f hf
  obtain ⟨g, rfl⟩ : ∃ g, f = g + 1 := ⟨f - 1, by omega⟩
  exact parseContent_stop g X

theorem parseContent_nil_all :
    ∀ f, 1 ≤ f → parseContent f ([] : List Char) = some ([], [], []) := by
  intro f hf
  obtain ⟨g, rfl⟩ : ∃ g, f = g + 1 := ⟨f - 1, by omega⟩
  exact parseContent_nil g

theorem parseContent_text_stop (t X : List Char) (ht : ∀ c ∈ t, ¬ c = '<') :
    ∀ f, t.length + 1 ≤ f →
      parseContent f (t ++ '<' :: '/' :: X) = some ([], t, '<' :: '/' :: X) := by
  intro f hf
  have h := parseContent_text t ht ('<' :: '/' :: X) [] [] ('<' :: '/' :: X) 1
    (parseContent_stop_all X) f hf
  simpa using h

theorem parseContent_text_nil (t : List Char) (ht : ∀ c ∈ t, ¬ c = '<') :
    ∀ f, t.length + 1 ≤ f → parseContent f t = some ([], t, []) := by
  intro f hf
  have h := parseContent_text t ht [] [] [] [] 1 parseContent_nil_all f hf
  simpa using h

/-- **C1.** For every reply containing a declared top-level `OUT` section
whose payload itself contains a nested `<OUT …>…</OUT>` occurrence (the
surrounding texts free of `<` and `&`, the filename attribute values free
of `"`, `&` and `<` — exactly the inputs the Go decoder accepts),
`processLLMResponse`'s extraction yields exactly one top-level section,
for the declared name, whose content is the verbatim text between that
section's own open and close delimiters with the nested delimiters
preserved as literal content — extraction is not truncated at the first
closing tag; with only that name declared, the full nested payload is
written. -/
theorem extractOutSections_nested (pre t1 t2 t3 post a b : List Char)
    (hpre : ∀ c ∈ pre, ¬ c = '<' ∧ ¬ c = '&')
    (ht1 : ∀ c ∈ t1, ¬ c = '<' ∧ ¬ c = '&')
    (ht2 : ∀ c ∈ t2, ¬ c = '<' ∧ ¬ c = '&')
    (ht3 : ∀ c ∈ t3, ¬ c = '<' ∧ ¬ c = '&')
    (hpost : ∀ c ∈ post, ¬ c = '<' ∧ ¬ c = '&')
    (ha : ∀ c ∈ a, ¬ c = '"' ∧ ¬ c = '&' ∧ ¬ c = '<')
    (hb : ∀ c ∈ b, ¬ c = '"' ∧ ¬ c = '&' ∧ ¬ c = '<') :
    extractOutSections (String.mk (nestedReply pre a t1 b t2 t3 post)) =
      some [(String.mk a, String.mk (innerPayload t1 b t2 t3))] ∧
    ∀ wp : Path,
      processLLMResponse (String.mk (nestedReply pre a t1 b t2 t3 post))
          [String.mk a] wp =
        .ok { ops := [FsOp.writeFile (wp.dropLast ++ [String.mk a ++ ".tmp"])
                (String.mk (innerPayload t1 b t2 t3)),
              FsOp.rename (wp.dropLast ++ [String.mk a ++ ".tmp"])
                (wp.dropLast ++ [String.mk a])],
              warnings := [] } := by
  have hpre' : ∀ c ∈ pre, ¬ c = '<' := fun c hc => (hpre c hc).1
  have ht1' : ∀ c ∈ t1, ¬ c = '<' := fun c hc => (ht1 c hc).1
  have ht2' : ∀ c ∈ t2, ¬ c = '<' := fun c hc => (ht2 c hc).1
  have ht3' : ∀ c ∈ t3, ¬ c = '<' := fun c hc => (ht3 c hc).1
  have hpost' : ∀ c ∈ post, ¬ c = '<' := fun c hc => (hpost c hc).1
  have ha' : ∀ c ∈ a, ¬ c = '"' := fun c hc => (ha c hc).1
  have hb' : ∀ c ∈ b, ¬ c = '"' := fun c hc => (hb c hc).1
  -- the nested element
  have helem_b := parseElement_out b t2
    (t3 ++ '<' :: '/' :: ('O' :: 'U' :: 'T' :: '>' :: post)) [] (t2.length + 1) hb'
    (parseContent_text_stop t2
      ('O' :: 'U' :: 'T' :: '>' :: (t3 ++ '<' :: '/' :: ('O' :: 'U' :: 'T' :: '>' :: post)))
      ht2')
  -- the outer element's content around the nested element
  have hcontent_inner : ∀ f, (t2.length + 1 + 3) + (t3.length + 1) + 1 ≤ f →
      parseContent f ('<' :: 'O' :: 'U' :: 'T' :: ' ' ::
          ("filename=".data ++ '"' :: b ++ '"' :: '>' ::
            (t2 ++ '<' :: '/' :: ('O' :: 'U' :: 'T' :: '>' ::
              (t3 ++ '<' :: '/' :: ('O' :: 'U' :: 'T' :: '>' :: post)))))) =
        some ([{ name := "OUT", attrs := [("filename", String.mk b)], inner := t2 }],
          ('<' :: 'O' :: 'U' :: 'T' :: ' ' ::
            ("filename=".data ++ '"' :: b ++ '"' :: '>' ::
              (t2 ++ '<' :: '/' :: ('O' :: 'U' :: 'T' :: '>' :: [])))) ++ t3,
          '<' :: '/' :: ('O' :: 'U' :: 'T' :: '>' :: post)) := by
    intro f hf
    have h := parseContent_elem _ (by simp) _ _ _ (t2.length + 1 + 3) helem_b
      [] t3 ('<' :: '/' :: ('O' :: 'U' :: 'T' :: '>' :: post)) (t3.length + 1)
      (parseContent_text_stop t3 ('O' :: 'U' :: 'T' :: '>' :: post) ht3') f hf
    simpa using h
  have hbody_outer := parseContent_text t1 ht1' _ _ _ _ _ hcontent_inner
  -- re-associate: the parsed content region is the verbatim inner payload
  have heq1 : (t1 ++ ('<' :: 'O' :: 'U' :: 'T' :: ' ' ::
        ("filename=".data ++ '"' :: b ++ '"' :: '>' ::
          (t2 ++ '<' :: '/' :: ('O' :: 'U' :: 'T' :: '>' :: [])))) ++ t3) ++
        '<' :: '/' :: ('O' :: 'U' :: 'T' :: '>' :: post) =
      t1 ++ '<' :: 'O' :: 'U' :: 'T' :: ' ' ::
        ("filename=".data ++ '"' :: b ++ '"' :: '>' ::
          (t2 ++ '<' :: '/' :: ('O' :: 'U' :: 'T' :: '>' ::
            (t3 ++ '<' :: '/' :: ('O' :: 'U' :: 'T' :: '>' :: post))))) := by
    simp
  have hbody_outer' : ∀ f, t1.length + t2.length + t3.length + 6 ≤ f →
      parseContent f ((t1 ++ ('<' :: 'O' :: 'U' :: 'T' :: ' ' ::
          ("filename=".data ++ '"' :: b ++ '"' :: '>' ::
            (t2 ++ '<' :: '/' :: ('O' :: 'U' :: 'T' :: '>' :: [])))) ++ t3) ++
          '<' :: '/' :: ('O' :: 'U' :: 'T' :: '>' :: post)) =
        some ([{ name := "OUT", attrs := [("filename", String.mk b)], inner := t2 }],
          (t1 ++ ('<' :: 'O' :: 'U' :: 'T' :: ' ' ::
            ("filename=".data ++ '"' :: b ++ '"' :: '>' ::
              (t2 ++ '<' :: '/' :: ('O' :: 'U' :: 'T' :: '>' :: [])))) ++ t3),
          '<' :: '/' :: ('O' :: 'U' :: 'T' :: '>' :: post)) := by
    intro f hf
    rw [heq1]
    have h := hbody_outer f (by omega)
    simpa [List.append_assoc] using h
  -- the outer element
  have helem_a := parseElement_out a
    ((t1 ++ ('<' :: 'O' :: 'U' :: 'T' :: ' ' ::
      ("filename=".data ++ '"' :: b ++ '"' :: '>' ::
        (t2 ++ '<' :: '/' :: ('O' :: 'U' :: 'T' :: '>' :: [])))) ++ t3))
    post
    [{ name := "OUT", attrs := [("filename", String.mk b)], inner := t2 }]
    (t1.length + t2.length + t3.length + 6) ha' hbody_outer'
  -- top level: pre, the outer element, post
  have htop_elem : ∀ f,
      (t1.length + t2.length + t3.length + 6 + 3) + (post.length + 1) + 1 ≤ f →
      parseContent f ('<' :: 'O' :: 'U' :: 'T' :: ' ' ::
          ("filename=".data ++ '"' :: a ++ '"' :: '>' ::
            (((t1 ++ ('<' :: 'O' :: 'U' :: 'T' :: ' ' ::
                ("filename=".data ++ '"' :: b ++ '"' :: '>' ::
                  (t2 ++ '<' :: '/' :: ('O' :: 'U' :: 'T' :: '>' :: [])))) ++ t3)) ++
              '<' :: '/' :: ('O' :: 'U' :: 'T' :: '>' :: post)))) =
        some ([XElem.mk "OUT" [("filename", String.mk a)]
            (t1 ++ ('<' :: 'O' :: 'U' :: 'T' :: ' ' ::
              ("filename=".data ++ '"' :: b ++ '"' :: '>' ::
                (t2 ++ '<' :: '/' :: ('O' :: 'U' :: 'T' :: '>' :: [])))) ++ t3)],
          ('<' :: 'O' :: 'U' :: 'T' :: ' ' ::
            ("filename=".data ++ '"' :: a ++ '"' :: '>' ::
              (((t1 ++ ('<' :: 'O' :: 'U' :: 'T' :: ' ' ::
                  ("filename=".data ++ '"' :: b ++ '"' :: '>' ::
                    (t2 ++ '<' :: '/' :: ('O' :: 'U' :: 'T' :: '>' :: [])))) ++ t3)) ++
                '<' :: '/' :: ('O' :: 'U' :: 'T' :: '>' :: [])))) ++ post,
          []) := by
    intro f hf
    have h := parseContent_elem _ (by simp) _ _ _
      (t1.length + t2.length + t3.length + 6 + 3) helem_a
      [] post [] (post.length + 1) (parseContent_text_nil post hpost') f hf
    simpa using h
  have htop := parseContent_text pre hpre' _ _ _ _ _ htop_elem
  -- identify the reply with the parsed shape
  have hreply : (String.mk (nestedReply pre a t1 b t2 t3 post)).data =
      pre ++ '<' :: 'O' :: 'U' :: 'T' :: ' ' ::
        ("filename=".data ++ '"' :: a ++ '"' :: '>' ::
          (((t1 ++ ('<' :: 'O' :: 'U' :: 'T' :: ' ' ::
              ("filename=".data ++ '"' :: b ++ '"' :: '>' ::
                (t2 ++ '<' :: '/' :: ('O' :: 'U' :: 'T' :: '>' :: [])))) ++ t3)) ++
            '<' :: '/' :: ('O' :: 'U' :: 'T' :: '>' :: post))) := by
    show nestedReply pre a t1 b t2 t3 post = _
    simp [nestedReply, innerPayload, outOpen, outClose]
  have hx1 : extractOutSections (String.mk (nestedReply pre a t1 b t2 t3 post)) =
      some [(String.mk a, String.mk (innerPayload t1 b t2 t3))] := by
    rw [extractOutSections, hreply]
    rw [htop _ (by
      simp only [List.length_append, List.length_cons]
      simp
      omega)]
    simp [attrValue, getAssoc, innerPayload, outOpen, outClose]
  refine ⟨hx1, ?_⟩
  intro wp
  rw [processLLMResponse, hx1]
  simp [processOutcome, sectionMap, writeLoop, setAssoc, getAssoc,
    undeclaredWarnings]

/-- Witness for C1 at the spec's example reply: the nested section is
preserved literally inside the single extracted top-level section, and
the declared file receives the full nested payload. -/
theorem extractOutSections_nested_witness :
    extractOutSections
        "<OUT filename=\"a.txt\">before <OUT filename=\"inner\">x</OUT> after</OUT>" =
      some [("a.txt", "before <OUT filename=\"inner\">x</OUT> after")] ∧
    processLLMResponse
        "<OUT filename=\"a.txt\">before <OUT filename=\"inner\">x</OUT> after</OUT>"
        ["a.txt"] ["tree"] =
      .ok { ops := [FsOp.writeFile ["a.txt.tmp"]
              "before <OUT filename=\"inner\">x</OUT> after",
            FsOp.rename ["a.txt.tmp"] ["a.txt"]],
            warnings := [] } := by
  have h := extractOutSections_nested [] "before ".data "x".data " after".data []
    "a.txt".data "inner".data (by decide) (by decide) (by decide) (by decide)
    (by decide) (by decide) (by decide)
  exact ⟨h.1, h.2 ["tree"]⟩

end Aidss
